import Mathlib

/-!
Shallow embedding of `src/jax_sysid/utils.py` (numpy utility functions for the
jax-sysid package) and proofs about it.

Modelling conventions:

* A numpy 2-D array of shape `(m, n)` is a function `Fin m → Fin n → ℝ`;
  floating-point numbers are idealized as real numbers.
* The one floating-point hazard the module's own documentation cares about is
  division by a zero denominator, which in IEEE arithmetic yields a non-finite
  value (NaN or ±∞) rather than raising an error.  Every such unguarded
  division in the source is therefore embedded as `nanDiv`, which returns
  `none` exactly when the denominator is zero and `some (a / b)` otherwise;
  a score of `none` models numpy's non-finite (NaN/∞) score.
* Python strings are handled through `strLower` / `strTake`, ASCII models of
  `str.lower()` and slicing `[0:3]`.
* `compute_scores` raises `ValueError` for an unknown metric; the embedding
  returns `Except.error msg` for that path and `Except.ok` with the pair of
  per-output score vectors (`score_train`, `score_test`) otherwise.
-/

namespace JaxSysid

/-- Model of Python `str.lower` on a single ASCII character. -/
def charLower (c : Char) : Char :=
  if c.isUpper then Char.ofNat (c.toNat + 32) else c

/-- Model of Python `str.lower` (ASCII). -/
def strLower (s : String) : String := ⟨s.data.map charLower⟩

/-- Model of Python string slicing `s[0:k]` (takes at most `k` characters). -/
def strTake (s : String) (k : ℕ) : String := ⟨s.data.take k⟩

/-- Column `i` of a matrix, i.e. the numpy slice `X[:, i]`. -/
def col {m n : ℕ} (X : Fin m → Fin n → ℝ) (i : Fin n) : Fin m → ℝ :=
  fun r => X r i

/-- `np.mean` of a 1-D array of length `m`: the sum of the entries divided
by `m`. -/
noncomputable def npMean {m : ℕ} (y : Fin m → ℝ) : ℝ :=
  (∑ r, y r) / m

/-- `np.std` of a 1-D array: the population standard deviation, i.e. the
square root of the mean of the squared deviations (divisor `m`, not `m-1`). -/
noncomputable def npStd {m : ℕ} (y : Fin m → ℝ) : ℝ :=
  Real.sqrt ((∑ r, (y r - npMean y) ^ 2) / m)

/-- The gain vector computed by `standard_scale` (utils.py lines 60-64):
`xgain` starts as all ones and entry `i` is set to `1/xstd[i]` whenever
`xstd[i] > 1e-6`. -/
noncomputable def xgain {m n : ℕ} (X : Fin m → Fin n → ℝ) (i : Fin n) : ℝ :=
  if npStd (col X i) > 1e-6 then 1 / npStd (col X i) else 1

/-- `standard_scale` (utils.py lines 38-65): returns
`((X - xmean) * xgain, xmean, xgain)` where `xmean = np.mean(X, 0)` and
`xgain` is as above; subtraction and multiplication broadcast per column. -/
noncomputable def standard_scale {m n : ℕ} (X : Fin m → Fin n → ℝ) :
    (Fin m → Fin n → ℝ) × (Fin n → ℝ) × (Fin n → ℝ) :=
  (fun r i => (X r i - npMean (col X i)) * xgain X i,
   fun i => npMean (col X i),
   xgain X)

/-- `unscale` (utils.py lines 68-86): `Xs/gain + offset`, broadcast per
column. -/
noncomputable def unscale {m n : ℕ} (Xs : Fin m → Fin n → ℝ)
    (offset gain : Fin n → ℝ) : Fin m → Fin n → ℝ :=
  fun r i => Xs r i / gain i + offset i

/-- Division as performed by numpy on floats: a zero denominator yields a
non-finite result (NaN or ±∞), modelled as `none`. -/
noncomputable def nanDiv (a b : ℝ) : Option ℝ :=
  if b = 0 then none else some (a / b)

/-- The per-column reference sum of squares `nY2` of `compute_scores`
(utils.py line 137): `np.sum((Y[:, i] - np.mean(Y[:, i]))**2)`. -/
noncomputable def nY2col {m n : ℕ} (Y : Fin m → Fin n → ℝ) (i : Fin n) : ℝ :=
  ∑ r, (Y r i - npMean (col Y i)) ^ 2

/-- Per-column R2 score of `compute_scores` (utils.py lines 141-146):
`100 * (1 - np.sum((Yhat[:, i] - Y[:, i])**2) / nY2)`. -/
noncomputable def r2col {m n : ℕ} (Y Yhat : Fin m → Fin n → ℝ) (i : Fin n) :
    Option ℝ :=
  (nanDiv (∑ r, (Yhat r i - Y r i) ^ 2) (nY2col Y i)).map
    (fun q => 100 * (1 - q))

/-- Per-column BFR score of `compute_scores` (utils.py lines 148-151):
`100 * (1 - np.linalg.norm(Yhat[:, i] - Y[:, i]) / np.sqrt(nY2))`. -/
noncomputable def bfrcol {m n : ℕ} (Y Yhat : Fin m → Fin n → ℝ) (i : Fin n) :
    Option ℝ :=
  (nanDiv (Real.sqrt (∑ r, (Yhat r i - Y r i) ^ 2))
      (Real.sqrt (nY2col Y i))).map (fun q => 100 * (1 - q))

/-- Per-column accuracy score of `compute_scores` (utils.py lines 153-154):
`np.mean(Yhat[:, i] == Y[:, i]) * 100`. -/
noncomputable def acccol {m n : ℕ} (Y Yhat : Fin m → Fin n → ℝ) (i : Fin n) :
    Option ℝ :=
  (nanDiv (∑ r, if Yhat r i = Y r i then (1 : ℝ) else 0) m).map
    (fun q => q * 100)

/-- `np.mean` of a whole `(m, n)` matrix: sum of all entries over `m * n`. -/
noncomputable def matMean {m n : ℕ} (Y : Fin m → Fin n → ℝ) : ℝ :=
  (∑ r, ∑ i, Y r i) / (m * n)

/-- Whole-matrix reference sum of squares of the single-output branch of
`compute_scores` (utils.py line 160): `np.sum((Y - np.mean(Y))**2)`. -/
noncomputable def nY2mat {m n : ℕ} (Y : Fin m → Fin n → ℝ) : ℝ :=
  ∑ r, ∑ i, (Y r i - matMean Y) ^ 2

/-- Whole-matrix R2 score of the single-output branch (utils.py
lines 163-166). -/
noncomputable def r2mat {m n : ℕ} (Y Yhat : Fin m → Fin n → ℝ) : Option ℝ :=
  (nanDiv (∑ r, ∑ i, (Yhat r i - Y r i) ^ 2) (nY2mat Y)).map
    (fun q => 100 * (1 - q))

/-- Whole-matrix BFR score of the single-output branch (utils.py
lines 168-171); `np.linalg.norm` of a matrix is the Frobenius norm. -/
noncomputable def bfrmat {m n : ℕ} (Y Yhat : Fin m → Fin n → ℝ) : Option ℝ :=
  (nanDiv (Real.sqrt (∑ r, ∑ i, (Yhat r i - Y r i) ^ 2))
      (Real.sqrt (nY2mat Y))).map (fun q => 100 * (1 - q))

/-- Whole-matrix accuracy score of the single-output branch (utils.py
lines 173-174). -/
noncomputable def accmat {m n : ℕ} (Y Yhat : Fin m → Fin n → ℝ) : Option ℝ :=
  (nanDiv (∑ r, ∑ i, if Yhat r i = Y r i then (1 : ℝ) else 0) (m * n)).map
    (fun q => q * 100)

/-- `compute_scores` (utils.py lines 89-176).  `ny` is the number of columns
of `Y_train`; the metric string is matched case-insensitively, with any
string whose lowercase form starts with "acc" accepted as Accuracy.  An
unrecognized metric raises `ValueError` before any computation on the data
arrays.  For `ny > 1` the scores are computed column by column; for `ny ≤ 1`
they are computed on the whole arrays at once.  The returned pair is
(`score_train`, `score_test`); the printed message is not modelled except
for its aggregate values, see `aggregate_score`. -/
noncomputable def compute_scores {mtr mte n : ℕ}
    (Y_train Yhat_train : Fin mtr → Fin n → ℝ)
    (Y_test Yhat_test : Fin mte → Fin n → ℝ) (fit : String) :
    Except String ((Fin n → Option ℝ) × (Fin n → Option ℝ)) :=
  let isR2 := strLower fit == "r2"
  let isBFR := strLower fit == "bfr"
  let isAcc := strTake (strLower fit) 3 == "acc"
  if !(isR2 || isBFR || isAcc) then
    Except.error ("Invalid fit metric, only 'R2', 'BFR', and 'Accuracy' are supported.")
  else if 1 < n then
    Except.ok
      (fun i =>
        if isR2 then r2col Y_train Yhat_train i
        else if isBFR then bfrcol Y_train Yhat_train i
        else acccol Y_train Yhat_train i,
       fun i =>
        if isR2 then r2col Y_test Yhat_test i
        else if isBFR then bfrcol Y_test Yhat_test i
        else acccol Y_test Yhat_test i)
  else
    Except.ok
      (fun _ =>
        if isR2 then r2mat Y_train Yhat_train
        else if isBFR then bfrmat Y_train Yhat_train
        else accmat Y_train Yhat_train,
       fun _ =>
        if isR2 then r2mat Y_test Yhat_test
        else if isBFR then bfrmat Y_test Yhat_test
        else accmat Y_test Yhat_test)

/-- The aggregate score reported in the message of `compute_scores`
(utils.py line 175): `np.sum(score) / ny`.  If any per-output score is
non-finite (`none`) the numpy sum is NaN and so is the aggregate. -/
noncomputable def aggregate_score {n : ℕ} (s : Fin n → Option ℝ) : Option ℝ :=
  if ∀ i, (s i).isSome then nanDiv (∑ i, (s i).getD 0) n else none

/-- Transpose, `M.T`. -/
def matT {p q : ℕ} (M : Fin p → Fin q → ℝ) : Fin q → Fin p → ℝ :=
  fun i j => M j i

/-- Numpy broadcast product `M * v` of a `(p, q)` matrix with a length-`q`
vector: column `j` is multiplied by `v j`. -/
noncomputable def bcastMul {p q : ℕ} (M : Fin p → Fin q → ℝ) (v : Fin q → ℝ) :
    Fin p → Fin q → ℝ :=
  fun i j => M i j * v j

/-- Numpy broadcast quotient `M / v`: column `j` is divided by `v j`. -/
noncomputable def bcastDiv {p q : ℕ} (M : Fin p → Fin q → ℝ) (v : Fin q → ℝ) :
    Fin p → Fin q → ℝ :=
  fun i j => M i j / v j

/-- `unscale_model` (utils.py lines 201-252): `B = B*ugain`,
`C = (C.T/ygain).T`, `D = D*ugain` followed by `D = (D.T/ygain).T`, returning
`(A, B, C, D, ymean, umean)`; the gains are folded into the matrices and not
returned. -/
noncomputable def unscale_model {nx nu p : ℕ}
    (A : Fin nx → Fin nx → ℝ) (B : Fin nx → Fin nu → ℝ)
    (C : Fin p → Fin nx → ℝ) (D : Fin p → Fin nu → ℝ)
    (ymean ygain : Fin p → ℝ) (umean ugain : Fin nu → ℝ) :
    (Fin nx → Fin nx → ℝ) × (Fin nx → Fin nu → ℝ) × (Fin p → Fin nx → ℝ) ×
      (Fin p → Fin nu → ℝ) × (Fin p → ℝ) × (Fin nu → ℝ) :=
  let B2 := bcastMul B ugain
  let C2 := matT (bcastDiv (matT C) ygain)
  let D2 := bcastMul D ugain
  let D3 := matT (bcastDiv (matT D2) ygain)
  (A, B2, C2, D3, ymean, umean)

end JaxSysid

namespace JaxSysid

lemma npStd_nonneg {m : ℕ} (y : Fin m → ℝ) : 0 ≤ npStd y :=
  Real.sqrt_nonneg _

lemma xgain_pos {m n : ℕ} (X : Fin m → Fin n → ℝ) (i : Fin n) :
    0 < xgain X i := by
  unfold xgain
  by_cases h : npStd (col X i) > 1e-6
  · rw [if_pos h]
    exact one_div_pos.mpr (lt_trans (show (0:ℝ) < 1e-6 by norm_num) h)
  · rw [if_neg h]
    exact one_pos

lemma nY2col_nonneg {m n : ℕ} (Y : Fin m → Fin n → ℝ) (i : Fin n) :
    0 ≤ nY2col Y i :=
  Finset.sum_nonneg fun _ _ => sq_nonneg _

lemma matMean_fin_one {m : ℕ} (Y : Fin m → Fin 1 → ℝ) :
    matMean Y = npMean (col Y 0) := by
  unfold matMean npMean col
  simp [Fin.sum_univ_one]

lemma nY2mat_fin_one {m : ℕ} (Y : Fin m → Fin 1 → ℝ) :
    nY2mat Y = nY2col Y 0 := by
  unfold nY2mat nY2col
  simp only [Fin.sum_univ_one, matMean_fin_one]

lemma r2mat_fin_one {m : ℕ} (Y Yhat : Fin m → Fin 1 → ℝ) :
    r2mat Y Yhat = r2col Y Yhat 0 := by
  unfold r2mat r2col
  rw [nY2mat_fin_one]
  simp only [Fin.sum_univ_one]

lemma bfrmat_fin_one {m : ℕ} (Y Yhat : Fin m → Fin 1 → ℝ) :
    bfrmat Y Yhat = bfrcol Y Yhat 0 := by
  unfold bfrmat bfrcol
  rw [nY2mat_fin_one]
  simp only [Fin.sum_univ_one]

end JaxSysid

namespace JaxSysid

lemma npMean_of_const {m : ℕ} (y : Fin (m+1) → ℝ) (h : ∀ r s, y r = y s)
    (r : Fin (m+1)) : npMean y = y r := by
  unfold npMean
  have hs : ∑ s, y s = ((m+1 : ℕ) : ℝ) * y r := by
    rw [Finset.sum_congr rfl (fun s _ => h s r), Finset.sum_const,
      Finset.card_univ, Fintype.card_fin, nsmul_eq_mul]
  rw [hs]
  exact mul_div_cancel_left₀ _ (by positivity)

lemma nY2col_of_const {m n : ℕ} (Y : Fin (m+1) → Fin n → ℝ) (i : Fin n)
    (h : ∀ r s, Y r i = Y s i) : nY2col Y i = 0 := by
  unfold nY2col
  apply Finset.sum_eq_zero
  intro r _
  have hm : npMean (col Y i) = Y r i := npMean_of_const (col Y i) h r
  rw [hm]
  simp [col]

lemma npStd_of_const {m n : ℕ} (X : Fin (m+1) → Fin n → ℝ) (i : Fin n)
    (h : ∀ r s, X r i = X s i) : npStd (col X i) = 0 := by
  have h0 : (∑ r, (col X i r - npMean (col X i)) ^ 2) = 0 :=
    nY2col_of_const X i h
  unfold npStd
  rw [h0]
  simp

/-- C3: applying `unscale` to the three outputs of `standard_scale` recovers
the input matrix exactly, because `unscale` computes `Xs/gain + offset`, the
algebraic inverse of `(X - mean) * gain` with the same `(mean, gain)` pair. -/
theorem unscale_standard_scale_roundtrip {m n : ℕ} (X : Fin m → Fin n → ℝ) :
    unscale (standard_scale X).1 (standard_scale X).2.1
      (standard_scale X).2.2 = X := by
  funext r i
  have hg : xgain X i ≠ 0 := (xgain_pos X i).ne'
  show (X r i - npMean (col X i)) * xgain X i / xgain X i +
    npMean (col X i) = X r i
  rw [mul_div_cancel_right₀ _ hg]
  ring

/-- C10: every entry of the gain vector returned by `standard_scale` is
strictly positive (either `1` or the reciprocal of a standard deviation
greater than `1e-6`), hence nonzero, so the division `Xs/gain` performed by
`unscale` on a gain produced by `standard_scale` is never a division by
zero. -/
theorem standard_scale_gain_pos {m n : ℕ} (X : Fin m → Fin n → ℝ)
    (i : Fin n) :
    0 < (standard_scale X).2.2 i ∧ (standard_scale X).2.2 i ≠ 0 :=
  ⟨xgain_pos X i, (xgain_pos X i).ne'⟩

/-- C6: `unscale_model` returns `A` unchanged, `B` scaled column-wise by
`ugain`, `C` scaled row-wise by `1/ygain`, `D` scaled column-wise by `ugain`
and row-wise by `1/ygain`, and `ymean`, `umean` unchanged (the gains are not
returned); with all-ones gains the matrices are returned unchanged. -/
theorem unscale_model_entrywise {nx nu p : ℕ}
    (A : Fin nx → Fin nx → ℝ) (B : Fin nx → Fin nu → ℝ)
    (C : Fin p → Fin nx → ℝ) (D : Fin p → Fin nu → ℝ)
    (ymean ygain : Fin p → ℝ) (umean ugain : Fin nu → ℝ) :
    unscale_model A B C D ymean ygain umean ugain =
      (A, fun i j => B i j * ugain j, fun i j => C i j / ygain i,
       fun i j => D i j * ugain j / ygain i, ymean, umean)
    ∧ unscale_model A B C D ymean (fun _ => 1) umean (fun _ => 1) =
      (A, B, C, D, ymean, umean) := by
  constructor
  · rfl
  · unfold unscale_model bcastMul bcastDiv matT
    refine Prod.ext rfl (Prod.ext ?_ (Prod.ext ?_ (Prod.ext ?_ rfl)))
    · funext i j
      simp
    · funext i j
      simp
    · funext i j
      simp

end JaxSysid

namespace JaxSysid

lemma compute_scores_R2_eq {mtr mte n : ℕ}
    (Ytr Yhtr : Fin mtr → Fin n → ℝ) (Yte Yhte : Fin mte → Fin n → ℝ)
    (fit : String) (h : strLower fit = "r2") :
    compute_scores Ytr Yhtr Yte Yhte fit =
      if 1 < n then
        Except.ok (fun i => r2col Ytr Yhtr i, fun i => r2col Yte Yhte i)
      else Except.ok (fun _ => r2mat Ytr Yhtr, fun _ => r2mat Yte Yhte) := by
  unfold compute_scores
  have h1 : (strLower fit == "r2") = true := by simp [h]
  simp only [h1, Bool.true_or, Bool.not_true, if_true]
  simp

lemma compute_scores_BFR_eq {mtr mte n : ℕ}
    (Ytr Yhtr : Fin mtr → Fin n → ℝ) (Yte Yhte : Fin mte → Fin n → ℝ)
    (fit : String) (h : strLower fit = "bfr") :
    compute_scores Ytr Yhtr Yte Yhte fit =
      if 1 < n then
        Except.ok (fun i => bfrcol Ytr Yhtr i, fun i => bfrcol Yte Yhte i)
      else Except.ok (fun _ => bfrmat Ytr Yhtr, fun _ => bfrmat Yte Yhte) := by
  unfold compute_scores
  have h1 : (strLower fit == "r2") = false := by simp [h]
  have h2 : (strLower fit == "bfr") = true := by simp [h]
  simp only [h1, h2, Bool.false_or, Bool.true_or, Bool.not_true, if_true]
  simp

/-- C1: for every pair of reference/prediction data sets, `compute_scores`
with the R2 metric returns, per output channel `i` and independently for
train and test, `100 * (1 - Σ(Yhat[:,i]-Y[:,i])² / Σ(Y[:,i]-mean(Y[:,i]))²)`,
the denominator using the respective data set's own per-channel mean (a
zero denominator makes the score non-finite, modelled by `none`). -/
theorem compute_scores_R2_channelwise {mtr mte n : ℕ}
    (Y_train Yhat_train : Fin mtr → Fin n → ℝ)
    (Y_test Yhat_test : Fin mte → Fin n → ℝ) :
    compute_scores Y_train Yhat_train Y_test Yhat_test ("R2") =
      Except.ok
        (fun i => (nanDiv (∑ r, (Yhat_train r i - Y_train r i) ^ 2)
            (∑ r, (Y_train r i - (∑ s, Y_train s i) / mtr) ^ 2)).map
            (fun q => 100 * (1 - q)),
         fun i => (nanDiv (∑ r, (Yhat_test r i - Y_test r i) ^ 2)
            (∑ r, (Y_test r i - (∑ s, Y_test s i) / mte) ^ 2)).map
            (fun q => 100 * (1 - q))) := by
  have hcol : ∀ (m' : ℕ) (Y Yhat : Fin m' → Fin n → ℝ) (i : Fin n),
      r2col Y Yhat i = (nanDiv (∑ r, (Yhat r i - Y r i) ^ 2)
        (∑ r, (Y r i - (∑ s, Y s i) / m') ^ 2)).map
        (fun q => 100 * (1 - q)) := fun _ _ _ _ => rfl
  rw [compute_scores_R2_eq _ _ _ _ _ (by decide)]
  by_cases hn : 1 < n
  · rw [if_pos hn]
    refine congrArg _ (Prod.ext ?_ ?_) <;> funext i
    · exact hcol mtr Y_train Yhat_train i
    · exact hcol mte Y_test Yhat_test i
  · rw [if_neg hn]
    match n, hn with
    | 0, _ =>
      refine congrArg _ (Prod.ext ?_ ?_) <;> funext i <;> exact i.elim0
    | 1, _ =>
      simp only [r2mat_fin_one]
      refine congrArg _ (Prod.ext ?_ ?_) <;> funext i <;>
        rw [Subsingleton.elim i 0] <;> exact hcol _ _ _ 0
    | (k+2), hn => exact absurd (by omega) hn

/-- C5: for every pair of reference/prediction data sets, `compute_scores`
with the BFR metric returns, per output channel `i` and independently for
train and test, `100 * (1 - ‖Yhat[:,i]-Y[:,i]‖₂ / sqrt(Σ(Y[:,i]-mean(Y[:,i]))²))`,
using the Euclidean norm of the residual (not its square) and each set's own
per-channel mean in the denominator. -/
theorem compute_scores_BFR_channelwise {mtr mte n : ℕ}
    (Y_train Yhat_train : Fin mtr → Fin n → ℝ)
    (Y_test Yhat_test : Fin mte → Fin n → ℝ) :
    compute_scores Y_train Yhat_train Y_test Yhat_test ("BFR") =
      Except.ok
        (fun i => (nanDiv (Real.sqrt (∑ r, (Yhat_train r i - Y_train r i) ^ 2))
            (Real.sqrt (∑ r, (Y_train r i - (∑ s, Y_train s i) / mtr) ^ 2))).map
            (fun q => 100 * (1 - q)),
         fun i => (nanDiv (Real.sqrt (∑ r, (Yhat_test r i - Y_test r i) ^ 2))
            (Real.sqrt (∑ r, (Y_test r i - (∑ s, Y_test s i) / mte) ^ 2))).map
            (fun q => 100 * (1 - q))) := by
  have hcol : ∀ (m' : ℕ) (Y Yhat : Fin m' → Fin n → ℝ) (i : Fin n),
      bfrcol Y Yhat i = (nanDiv (Real.sqrt (∑ r, (Yhat r i - Y r i) ^ 2))
        (Real.sqrt (∑ r, (Y r i - (∑ s, Y s i) / m') ^ 2))).map
        (fun q => 100 * (1 - q)) := fun _ _ _ _ => rfl
  rw [compute_scores_BFR_eq _ _ _ _ _ (by decide)]
  by_cases hn : 1 < n
  · rw [if_pos hn]
    refine congrArg _ (Prod.ext ?_ ?_) <;> funext i
    · exact hcol mtr Y_train Yhat_train i
    · exact hcol mte Y_test Yhat_test i
  · rw [if_neg hn]
    match n, hn with
    | 0, _ =>
      refine congrArg _ (Prod.ext ?_ ?_) <;> funext i <;> exact i.elim0
    | 1, _ =>
      simp only [bfrmat_fin_one]
      refine congrArg _ (Prod.ext ?_ ?_) <;> funext i <;>
        rw [Subsingleton.elim i 0] <;> exact hcol _ _ _ 0
    | (k+2), hn => exact absurd (by omega) hn

end JaxSysid


namespace JaxSysid

lemma compute_scores_Acc_eq {mtr mte n : ℕ}
    (Ytr Yhtr : Fin mtr → Fin n → ℝ) (Yte Yhte : Fin mte → Fin n → ℝ)
    (fit : String) (h : strTake (strLower fit) 3 = "acc") :
    compute_scores Ytr Yhtr Yte Yhte fit =
      if 1 < n then
        Except.ok (fun i => acccol Ytr Yhtr i, fun i => acccol Yte Yhte i)
      else Except.ok (fun _ => accmat Ytr Yhtr, fun _ => accmat Yte Yhte) := by
  have h1 : (strLower fit == "r2") = false := by
    refine beq_eq_false_iff_ne.mpr fun he => ?_
    rw [he] at h
    exact absurd h (by decide)
  have h2 : (strLower fit == "bfr") = false := by
    refine beq_eq_false_iff_ne.mpr fun he => ?_
    rw [he] at h
    exact absurd h (by decide)
  have h3 : (strTake (strLower fit) 3 == "acc") = true := by simp [h]
  unfold compute_scores
  simp only [h1, h2, h3, Bool.false_or, Bool.or_true, Bool.not_true, if_true]
  simp

/-- C2: `compute_scores` fails with the invalid-metric error exactly when the
lowercased selector is neither "r2" nor "bfr" nor a string whose first three
characters are "acc"; in the invalid case the result is the fixed error
message — independent of the data arrays, so the error precedes any
computation on them — and in the valid case the call succeeds. -/
theorem compute_scores_invalid_metric_iff {mtr mte n : ℕ}
    (Ytr Yhtr : Fin mtr → Fin n → ℝ) (Yte Yhte : Fin mte → Fin n → ℝ)
    (fit : String) :
    (compute_scores Ytr Yhtr Yte Yhte fit =
        Except.error
          ("Invalid fit metric, only 'R2', 'BFR', and 'Accuracy' are supported.")
      ↔ ¬(strLower fit = "r2" ∨ strLower fit = "bfr" ∨
            strTake (strLower fit) 3 = "acc"))
    ∧ ((∃ p, compute_scores Ytr Yhtr Yte Yhte fit = Except.ok p)
      ↔ (strLower fit = "r2" ∨ strLower fit = "bfr" ∨
            strTake (strLower fit) 3 = "acc")) := by
  by_cases hv : strLower fit = "r2" ∨ strLower fit = "bfr" ∨
      strTake (strLower fit) 3 = "acc"
  · have hok : ∃ p, compute_scores Ytr Yhtr Yte Yhte fit = Except.ok p := by
      rcases hv with h | h | h
      · rw [compute_scores_R2_eq Ytr Yhtr Yte Yhte fit h]
        by_cases hn : 1 < n
        · rw [if_pos hn]
          exact ⟨_, rfl⟩
        · rw [if_neg hn]
          exact ⟨_, rfl⟩
      · rw [compute_scores_BFR_eq Ytr Yhtr Yte Yhte fit h]
        by_cases hn : 1 < n
        · rw [if_pos hn]
          exact ⟨_, rfl⟩
        · rw [if_neg hn]
          exact ⟨_, rfl⟩
      · rw [compute_scores_Acc_eq Ytr Yhtr Yte Yhte fit h]
        by_cases hn : 1 < n
        · rw [if_pos hn]
          exact ⟨_, rfl⟩
        · rw [if_neg hn]
          exact ⟨_, rfl⟩
    obtain ⟨p, hp⟩ := hok
    constructor
    · constructor
      · intro he
        rw [hp] at he
        exact Except.noConfusion he
      · intro hinv
        exact absurd hv hinv
    · exact ⟨fun _ => hv, fun _ => ⟨p, hp⟩⟩
  · have herr : compute_scores Ytr Yhtr Yte Yhte fit =
        Except.error
          ("Invalid fit metric, only 'R2', 'BFR', and 'Accuracy' are supported.") := by
      push_neg at hv
      have h1 : (strLower fit == "r2") = false := beq_eq_false_iff_ne.mpr hv.1
      have h2 : (strLower fit == "bfr") = false := beq_eq_false_iff_ne.mpr hv.2.1
      have h3 : (strTake (strLower fit) 3 == "acc") = false :=
        beq_eq_false_iff_ne.mpr hv.2.2
      unfold compute_scores
      simp only [h1, h2, h3, Bool.or_false, Bool.not_false, if_true]
    constructor
    · exact ⟨fun _ => hv, fun _ => herr⟩
    · constructor
      · rintro ⟨p, hp⟩
        rw [herr] at hp
        exact absurd hp Except.noConfusion
      · intro h
        exact absurd h hv

end JaxSysid

namespace JaxSysid

/-- Training data `[[1],[2],[3]]` of the spec's end-to-end example. -/
noncomputable def Yex123 : Fin 3 → Fin 1 → ℝ :=
  fun r _ => if r = 0 then 1 else if r = 1 then 2 else 3

/-- Test data `[[2],[2],[2]]` of the spec's end-to-end example. -/
noncomputable def Yex222 : Fin 3 → Fin 1 → ℝ := fun _ _ => 2

lemma r2col_self {m n : ℕ} (Y : Fin m → Fin n → ℝ) (i : Fin n)
    (h : nY2col Y i ≠ 0) : r2col Y Y i = some 100 := by
  have h0 : (∑ r, (Y r i - Y r i) ^ 2) = (0:ℝ) := by simp
  unfold r2col
  rw [h0]
  unfold nanDiv
  rw [if_neg h]
  norm_num

lemma bfrcol_self {m n : ℕ} (Y : Fin m → Fin n → ℝ) (i : Fin n)
    (h : nY2col Y i ≠ 0) : bfrcol Y Y i = some 100 := by
  have h0 : (∑ r, (Y r i - Y r i) ^ 2) = (0:ℝ) := by simp
  have hs : Real.sqrt (nY2col Y i) ≠ 0 := by
    have hpos : 0 < nY2col Y i := lt_of_le_of_ne (nY2col_nonneg Y i) (Ne.symm h)
    exact (Real.sqrt_pos.mpr hpos).ne'
  unfold bfrcol
  rw [h0, Real.sqrt_zero]
  unfold nanDiv
  rw [if_neg hs]
  norm_num

lemma r2col_none {m n : ℕ} (Y Yhat : Fin m → Fin n → ℝ) (i : Fin n)
    (h : nY2col Y i = 0) : r2col Y Yhat i = none := by
  unfold r2col nanDiv
  rw [h, if_pos rfl]
  rfl

lemma bfrcol_none {m n : ℕ} (Y Yhat : Fin m → Fin n → ℝ) (i : Fin n)
    (h : nY2col Y i = 0) : bfrcol Y Yhat i = none := by
  unfold bfrcol nanDiv
  rw [h, Real.sqrt_zero, if_pos rfl]
  rfl

lemma nY2col_Yex123 : nY2col Yex123 0 = 2 := by
  unfold nY2col npMean col Yex123
  rw [Fin.sum_univ_three, Fin.sum_univ_three]
  simp +decide
  norm_num

lemma nY2mat_Yex222 : nY2mat Yex222 = 0 := by
  rw [nY2mat_fin_one]
  exact nY2col_of_const Yex222 0 fun r s => rfl

lemma r2mat_Yex123_self : r2mat Yex123 Yex123 = some 100 := by
  rw [r2mat_fin_one]
  refine r2col_self Yex123 0 ?_
  rw [nY2col_Yex123]
  norm_num

lemma r2mat_Yex222_none : r2mat Yex222 Yex222 = none := by
  rw [r2mat_fin_one]
  exact r2col_none Yex222 Yex222 0 (nY2col_of_const Yex222 0 fun r s => rfl)

end JaxSysid

namespace JaxSysid

/-- C4: for a matrix with at least one sample, `standard_scale` uses the
per-column mean and the population standard deviation (divisor `m+1`, not
`m`), sets `gain[i] = 1/std[i]` exactly when `std[i] > 1e-6` and
`gain[i] = 1` otherwise, and scales entrywise as `(X[r,i] - mean[i]) *
gain[i]`; a zero-variance (constant) column gets gain `1` and its scaled
column equals `X - mean` exactly. -/
theorem standard_scale_spec {m n : ℕ} (X : Fin (m+1) → Fin n → ℝ) :
    (∀ i, (standard_scale X).2.1 i = (∑ r, X r i) / ((m:ℝ) + 1))
    ∧ (∀ i, npStd (col X i) =
        Real.sqrt ((∑ r, (X r i - (∑ s, X s i) / ((m:ℝ) + 1)) ^ 2) /
          ((m:ℝ) + 1)))
    ∧ (∀ i, (1e-6 < npStd (col X i) →
          (standard_scale X).2.2 i = 1 / npStd (col X i))
        ∧ (¬ 1e-6 < npStd (col X i) → (standard_scale X).2.2 i = 1))
    ∧ (∀ r i, (standard_scale X).1 r i =
        (X r i - (standard_scale X).2.1 i) * (standard_scale X).2.2 i)
    ∧ (∀ i, (∀ r s, X r i = X s i) →
        (standard_scale X).2.2 i = 1 ∧
        ∀ r, (standard_scale X).1 r i = X r i - (standard_scale X).2.1 i) := by
  refine ⟨fun i => ?_, fun i => ?_, fun i => ⟨fun h => ?_, fun h => ?_⟩,
    fun r i => rfl, fun i hconst => ?_⟩
  · show npMean (col X i) = _
    unfold npMean col
    push_cast
    rfl
  · unfold npStd npMean col
    push_cast
    rfl
  · show xgain X i = _
    unfold xgain
    rw [if_pos h]
  · show xgain X i = 1
    unfold xgain
    rw [if_neg h]
  · have hstd : npStd (col X i) = 0 := npStd_of_const X i hconst
    have hgain : xgain X i = 1 := by
      unfold xgain
      rw [hstd, if_neg (by norm_num)]
    refine ⟨hgain, fun r => ?_⟩
    show (X r i - npMean (col X i)) * xgain X i = X r i - npMean (col X i)
    rw [hgain, mul_one]

/-- Witness for `standard_scale_spec`: a concrete constant column, on which
the degenerate branch yields gain 1. -/
theorem standard_scale_spec_witness :
    (∀ r s : Fin 1, (fun _ _ => (5:ℝ) : Fin 1 → Fin 1 → ℝ) r 0 =
      (fun _ _ => (5:ℝ) : Fin 1 → Fin 1 → ℝ) s 0) ∧
    (standard_scale (fun _ _ => (5:ℝ) : Fin 1 → Fin 1 → ℝ)).2.2 0 = 1 :=
  ⟨fun _ _ => rfl,
   ((standard_scale_spec (fun _ _ => (5:ℝ) : Fin 1 → Fin 1 → ℝ)).2.2.2.2 0
      (fun _ _ => rfl)).1⟩

end JaxSysid

namespace JaxSysid

/-- C7: the aggregate reported by `compute_scores` is `np.sum(score)/ny`:
with more than one output it is the unweighted arithmetic mean of the
per-channel scores (for per-channel scores [90, 80, 70] it is 80), and with
a single output the single score itself is the aggregate. -/
theorem aggregate_score_is_mean {n : ℕ} (v : Fin n → ℝ) (h : 1 < n) :
    aggregate_score (fun i => some (v i)) = some ((∑ i, v i) / n)
    ∧ (∀ x : ℝ, aggregate_score (fun _ : Fin 1 => some x) = some x)
    ∧ aggregate_score
        (fun i : Fin 3 => some (![(90:ℝ), 80, 70] i)) = some 80 := by
  refine ⟨?_, fun x => ?_, ?_⟩
  · unfold aggregate_score nanDiv
    have hc : ∀ i : Fin n, ((fun j => some (v j)) i).isSome = true :=
      fun i => rfl
    rw [if_pos hc, if_neg (Nat.cast_ne_zero.mpr (by omega : n ≠ 0))]
    simp
  · unfold aggregate_score nanDiv
    have hc : ∀ i : Fin 1, ((fun _ => some x) i).isSome = true := fun i => rfl
    rw [if_pos hc, if_neg (by norm_num : ((1:ℕ):ℝ) ≠ 0)]
    simp
  · unfold aggregate_score nanDiv
    have hc : ∀ i : Fin 3, ((fun j => some (![(90:ℝ), 80, 70] j)) i).isSome
        = true := fun i => rfl
    rw [if_pos hc, if_neg (by norm_num : ((3:ℕ):ℝ) ≠ 0)]
    simp only [Option.getD_some, Fin.sum_univ_succ, Matrix.cons_val_zero,
      Matrix.cons_val_succ]
    norm_num

/-- Witness for `aggregate_score_is_mean` at three channels. -/
theorem aggregate_score_is_mean_witness :
    (1 < 3) ∧
    aggregate_score (fun i : Fin 3 => some (![(90:ℝ), 80, 70] i)) =
      some ((∑ i, ![(90:ℝ), 80, 70] i) / ((3:ℕ):ℝ)) :=
  ⟨by norm_num, (aggregate_score_is_mean ![(90:ℝ), 80, 70] (by norm_num)).1⟩

end JaxSysid

namespace JaxSysid

/-- C8 counterexample: with `Yhat == Y` exactly for both the train and the
test pair but a constant test reference (`[[2],[2],[2]]`), the R2 test score
is the non-finite `none` produced by the 0/0 division, not 100: the claim as
stated fails at this input. -/
theorem perfect_fit_constant_reference_cex :
    ∃ tr te, compute_scores Yex123 Yex123 Yex222 Yex222 ("R2") =
        Except.ok (tr, te) ∧ te 0 = none ∧ ¬ te 0 = some 100 := by
  rw [compute_scores_R2_eq _ _ _ _ _ (by decide), if_neg (by norm_num)]
  refine ⟨_, _, rfl, ?_, ?_⟩
  · exact r2mat_Yex222_none
  · rw [r2mat_Yex222_none]
    simp

/-- C8 amended: under the additional hypothesis that every reference channel
of both data sets has nonzero variance (nonzero denominator
`Σ(Y-mean Y)²`), a perfect fit `Yhat == Y` makes `compute_scores` return
exactly 100 for every channel under both the R2 and the BFR metric, and the
aggregate of those per-channel scores is also exactly 100. -/
theorem compute_scores_perfect_fit {mtr mte n : ℕ}
    (Y_train : Fin mtr → Fin (n+1) → ℝ) (Y_test : Fin mte → Fin (n+1) → ℝ)
    (htr : ∀ i, nY2col Y_train i ≠ 0) (hte : ∀ i, nY2col Y_test i ≠ 0) :
    (compute_scores Y_train Y_train Y_test Y_test ("R2") =
        Except.ok (fun _ => some 100, fun _ => some 100)
      ∧ compute_scores Y_train Y_train Y_test Y_test ("BFR") =
        Except.ok (fun _ => some 100, fun _ => some 100))
    ∧ aggregate_score (fun _ : Fin (n+1) => some (100:ℝ)) = some 100 := by
  refine ⟨⟨?_, ?_⟩, ?_⟩
  · rw [compute_scores_R2_eq _ _ _ _ _ (by decide)]
    by_cases hn : 1 < n + 1
    · rw [if_pos hn]
      refine congrArg _ (Prod.ext ?_ ?_) <;> funext i
      · exact r2col_self Y_train i (htr i)
      · exact r2col_self Y_test i (hte i)
    · rw [if_neg hn]
      have hn0 : n = 0 := by omega
      subst hn0
      simp only [r2mat_fin_one]
      refine congrArg _ (Prod.ext ?_ ?_) <;> funext i
      · exact r2col_self Y_train 0 (htr 0)
      · exact r2col_self Y_test 0 (hte 0)
  · rw [compute_scores_BFR_eq _ _ _ _ _ (by decide)]
    by_cases hn : 1 < n + 1
    · rw [if_pos hn]
      refine congrArg _ (Prod.ext ?_ ?_) <;> funext i
      · exact bfrcol_self Y_train i (htr i)
      · exact bfrcol_self Y_test i (hte i)
    · rw [if_neg hn]
      have hn0 : n = 0 := by omega
      subst hn0
      simp only [bfrmat_fin_one]
      refine congrArg _ (Prod.ext ?_ ?_) <;> funext i
      · exact bfrcol_self Y_train 0 (htr 0)
      · exact bfrcol_self Y_test 0 (hte 0)
  · unfold aggregate_score nanDiv
    have hc : ∀ i : Fin (n+1), ((fun _ => some (100:ℝ)) i).isSome = true :=
      fun i => rfl
    have hnz : ((n+1 : ℕ):ℝ) ≠ 0 := Nat.cast_ne_zero.mpr (Nat.succ_ne_zero n)
    rw [if_pos hc, if_neg hnz]
    simp only [Option.getD_some, Finset.sum_const, Finset.card_univ,
      Fintype.card_fin, nsmul_eq_mul]
    congr 1
    rw [mul_comm]
    exact mul_div_cancel_right₀ 100 hnz

/-- Witness for `compute_scores_perfect_fit`: both reference sets are the
non-constant `[[1],[2],[3]]`. -/
theorem compute_scores_perfect_fit_witness :
    (∀ i : Fin 1, nY2col Yex123 i ≠ 0) ∧
    compute_scores Yex123 Yex123 Yex123 Yex123 ("R2") =
      Except.ok (fun _ => some 100, fun _ => some 100) := by
  have h : ∀ i : Fin 1, nY2col Yex123 i ≠ 0 := by
    intro i
    rw [Subsingleton.elim i 0, nY2col_Yex123]
    norm_num
  exact ⟨h, ((compute_scores_perfect_fit Yex123 Yex123 h h).1).1⟩

end JaxSysid

namespace JaxSysid

/-- C9: for both the R2 and the BFR metric, a reference data set that is
constant in channel `i` — whichever of the train or the test set it is —
makes `compute_scores` divide by the zero denominator `Σ(Y-mean Y)²`: no
error is raised — the call still succeeds — and that set's score for that
channel is the non-finite value produced by the unguarded division
(modelled by `none`); moreover at the spec's concrete example
(`Y_train = Yhat_train = [[1],[2],[3]]`, `Y_test = Yhat_test = [[2],[2],[2]]`,
`fit = "R2"`) the train score is exactly 100 and the test score is
undefined. -/
theorem compute_scores_zero_variance_unguarded {mtr mte n : ℕ}
    (Y_train Yhat_train : Fin (mtr+1) → Fin (n+1) → ℝ)
    (Y_test Yhat_test : Fin (mte+1) → Fin (n+1) → ℝ) (i : Fin (n+1)) :
    ((∀ r s, Y_train r i = Y_train s i) →
      (∃ tr te, compute_scores Y_train Yhat_train Y_test Yhat_test ("R2") =
          Except.ok (tr, te) ∧ tr i = none)
      ∧ (∃ tr te, compute_scores Y_train Yhat_train Y_test Yhat_test ("BFR") =
          Except.ok (tr, te) ∧ tr i = none))
    ∧ ((∀ r s, Y_test r i = Y_test s i) →
      (∃ tr te, compute_scores Y_train Yhat_train Y_test Yhat_test ("R2") =
          Except.ok (tr, te) ∧ te i = none)
      ∧ (∃ tr te, compute_scores Y_train Yhat_train Y_test Yhat_test ("BFR") =
          Except.ok (tr, te) ∧ te i = none))
    ∧ compute_scores Yex123 Yex123 Yex222 Yex222 ("R2") =
        Except.ok (fun _ => some 100, fun _ => none) := by
  refine ⟨fun hconst => ?_, fun hconst => ?_, ?_⟩
  · have h0 : nY2col Y_train i = 0 := nY2col_of_const Y_train i hconst
    constructor
    · rw [compute_scores_R2_eq _ _ _ _ _ (by decide)]
      by_cases hn : 1 < n + 1
      · rw [if_pos hn]
        exact ⟨_, _, rfl, r2col_none Y_train Yhat_train i h0⟩
      · rw [if_neg hn]
        have hn0 : n = 0 := by omega
        subst hn0
        refine ⟨_, _, rfl, ?_⟩
        show r2mat Y_train Yhat_train = none
        rw [r2mat_fin_one]
        exact r2col_none Y_train Yhat_train 0 (Fin.eq_zero i ▸ h0)
    · rw [compute_scores_BFR_eq _ _ _ _ _ (by decide)]
      by_cases hn : 1 < n + 1
      · rw [if_pos hn]
        exact ⟨_, _, rfl, bfrcol_none Y_train Yhat_train i h0⟩
      · rw [if_neg hn]
        have hn0 : n = 0 := by omega
        subst hn0
        refine ⟨_, _, rfl, ?_⟩
        show bfrmat Y_train Yhat_train = none
        rw [bfrmat_fin_one]
        exact bfrcol_none Y_train Yhat_train 0 (Fin.eq_zero i ▸ h0)
  · have h0 : nY2col Y_test i = 0 := nY2col_of_const Y_test i hconst
    constructor
    · rw [compute_scores_R2_eq _ _ _ _ _ (by decide)]
      by_cases hn : 1 < n + 1
      · rw [if_pos hn]
        exact ⟨_, _, rfl, r2col_none Y_test Yhat_test i h0⟩
      · rw [if_neg hn]
        have hn0 : n = 0 := by omega
        subst hn0
        refine ⟨_, _, rfl, ?_⟩
        show r2mat Y_test Yhat_test = none
        rw [r2mat_fin_one]
        exact r2col_none Y_test Yhat_test 0 (Fin.eq_zero i ▸ h0)
    · rw [compute_scores_BFR_eq _ _ _ _ _ (by decide)]
      by_cases hn : 1 < n + 1
      · rw [if_pos hn]
        exact ⟨_, _, rfl, bfrcol_none Y_test Yhat_test i h0⟩
      · rw [if_neg hn]
        have hn0 : n = 0 := by omega
        subst hn0
        refine ⟨_, _, rfl, ?_⟩
        show bfrmat Y_test Yhat_test = none
        rw [bfrmat_fin_one]
        exact bfrcol_none Y_test Yhat_test 0 (Fin.eq_zero i ▸ h0)
  · rw [compute_scores_R2_eq _ _ _ _ _ (by decide), if_neg (by norm_num)]
    refine congrArg _ (Prod.ext ?_ ?_) <;> funext j
    · exact r2mat_Yex123_self
    · exact r2mat_Yex222_none

/-- Witness for `compute_scores_zero_variance_unguarded`, exercising both
the constant-train-reference case and the constant-test-reference case at
the spec's concrete data. -/
theorem compute_scores_zero_variance_unguarded_witness :
    (∀ r s : Fin 3, Yex222 r 0 = Yex222 s 0) ∧
    (∃ tr te, compute_scores Yex222 Yex123 Yex123 Yex123 ("R2") =
        Except.ok (tr, te) ∧ tr 0 = none) ∧
    (∃ tr te, compute_scores Yex123 Yex123 Yex222 Yex222 ("R2") =
        Except.ok (tr, te) ∧ te 0 = none) :=
  ⟨fun _ _ => rfl,
   (((compute_scores_zero_variance_unguarded Yex222 Yex123 Yex123 Yex123
      0).1 (fun _ _ => rfl)).1),
   (((compute_scores_zero_variance_unguarded Yex123 Yex123 Yex222 Yex222
      0).2.1 (fun _ _ => rfl)).1)⟩

end JaxSysid
